import Mathlib

/-!
Verification of the `alpha_solve_numerical` plug-in collection: a shallow
embedding of `evaluate_num_macro.py`, `evaluate_numerical.py`,
`find_roots.py` and `solve_numerical.py`.

Python floats are modelled as rationals (`ℚ`); the external black boxes
(`from_latex`, `sympify`, `lambdify`-produced functions, `fsolve`,
`brentq`) are modelled as explicit oracle parameters returning
`Except String` values, a raised exception being an `.error`. A Python
`set` of floats is modelled as a duplicate-free list with
membership-tested insertion; the code only consumes such sets through
`sorted(...)`, which is modelled by an insertion sort.
-/

attribute [local semireducible] Rat.add Rat.mul Rat.sub Rat.inv

/-- Whitespace characters recognised by Python's `str.strip` and `\s`
(ASCII fragment). -/
def isPySpace (c : Char) : Bool :=
  c == ' ' || c == '\t' || c == '\n' || c == '\r' || c == '\x0b' || c == '\x0c'

/-- `str.strip()` on a character list: drop leading and trailing whitespace. -/
def pyStrip (l : List Char) : List Char :=
  ((l.dropWhile isPySpace).reverse.dropWhile isPySpace).reverse

/-- `round(x, 10)`: round to ten decimal places (tie behaviour is
abstracted; no property below depends on exact halves). -/
def round10 (q : ℚ) : ℚ :=
  ((q * 10 ^ 10 + 1 / 2).floor : ℚ) / 10 ^ 10

deriving instance DecidableEq for Except

/-- The residual-acceptance threshold `1e-6` used by both root searchers. -/
def tol : ℚ := 1 / 1000000

/-- Rendering of a numeric value as text (`str(...)` on a float). -/
def ratStr (q : ℚ) : String := toString q

/-- The slice `s[a:b]` of a character list. -/
def listSlice (s : List Char) (a b : Nat) : List Char :=
  (s.drop a).take (b - a)

/-- Decimal digit character for `d < 10`. -/
def decDigitChar (d : Nat) : Char := Char.ofNat (48 + d)

/-- Decimal digits of a natural number, most significant first
(fuel-driven; `natDigits` supplies enough fuel). -/
def natDigitsAux : Nat → Nat → List Char → List Char
  | 0, _, acc => acc
  | fuel + 1, n, acc =>
    if n < 10 then decDigitChar n :: acc
    else natDigitsAux fuel (n / 10) (decDigitChar (n % 10) :: acc)

/-- Decimal rendering of a natural number (`f"{n}"`). -/
def natDigits (n : Nat) : List Char := natDigitsAux (n + 1) n []

/-- Order-preserving removal of duplicates keeping first occurrences,
with an accumulator of already-seen keys: `dict.fromkeys` semantics. -/
def dedupSeen (seen : List String) : List String → List String
  | [] => []
  | a :: l => if a ∈ seen then dedupSeen seen l else a :: dedupSeen (a :: seen) l

/-- Duplicate removal preserving first-occurrence order, stated as the
spec words it: an element is kept exactly when it has not appeared
before. -/
def specDedup (l : List String) : List String :=
  l.foldl (fun acc a => if a ∈ acc then acc else acc ++ [a]) []

/-- `itertools.product(*lists)`: all combinations, the leftmost list
varying slowest. -/
def pyProduct : List (List α) → List (List α)
  | [] => [[]]
  | l :: ls => (l.map fun a => (pyProduct ls).map (a :: ·)).flatten

/-- Membership-tested insertion into a duplicate-free list: the model of
adding a rounded float to a Python `set`. -/
def insertRoot (r : ℚ) (acc : List ℚ) : List ℚ :=
  if r ∈ acc then acc else acc ++ [r]

/-- Ascending order on rationals, as `sorted(...)` uses it. -/
def ratLe (a b : ℚ) : Prop := a ≤ b

instance : DecidableRel ratLe := fun a b => (inferInstance : Decidable (a ≤ b))

instance : IsTotal ℚ ratLe := ⟨fun a b => le_total a b⟩

instance : IsTrans ℚ ratLe := ⟨fun _ _ _ => le_trans⟩

instance : IsAntisymm ℚ ratLe := ⟨fun _ _ => le_antisymm⟩

/-- `sorted(...)` on a set of floats: the ascending enumeration. -/
def sortRoots (l : List ℚ) : List ℚ := List.insertionSort ratLe l

/-- Lexicographic code-point comparison of character lists: the order of
Python string comparison. -/
def charListLe : List Char → List Char → Bool
  | [], _ => true
  | _ :: _, [] => false
  | a :: as, b :: bs =>
    if a.toNat < b.toNat then true
    else if b.toNat < a.toNat then false
    else charListLe as bs

/-- Python string comparison `a <= b` (code-point lexicographic). -/
def strLe (a b : String) : Prop := charListLe a.toList b.toList = true

instance : DecidableRel strLe :=
  fun a b => (inferInstance : Decidable (charListLe a.toList b.toList = true))

/-- `sorted(..., key=str)` on a list of names. -/
def pySortedStr (l : List String) : List String := List.insertionSort strLe l

/-- Modelled from the spec: the `Variable` type of the `alpha_solve` data
model (§3): a name, a `numerical`/`analytical` tag and an ordered sequence
of value strings. The defining module is not part of this repository. -/
inductive VarType
  | numerical
  | analytical
deriving DecidableEq

/-- Modelled from the spec: a context variable (§3). -/
structure Variable where
  name : String
  type : VarType
  values : List String
deriving DecidableEq

/-- Modelled from the spec: `Variable.create_numerical` builds a
`numerical` variable from a name and value strings (§4.4: "the context
gains (or replaces) a `numerical` variable"). -/
def Variable.create_numerical (name : String) (values : List String) : Variable :=
  ⟨name, VarType.numerical, values⟩

/-- Modelled from the spec: the `Context` of named bindings (§3). The
source field is called `variables`, a reserved word here. -/
structure Context where
  «variables» : List Variable
deriving DecidableEq

/-- Modelled from the spec: result of a meta (applicability) function (§3). -/
structure MetaFunctionResult where
  index : Nat
  name : String
  use_result : Bool
deriving DecidableEq

/-- Modelled from the spec: result of a cell solution function (§3). -/
structure CellFunctionResult where
  visible_solutions : List String
  new_context : Context
deriving DecidableEq

/-- Modelled from the spec: input to a cell solution function: the cell's
`latex` field and the threaded context (§3: a cell is an opaque container
holding at least a `latex` text field). -/
structure CellFunctionInput where
  cell_latex : String
  context : Context
deriving DecidableEq

/-!
Embedding of `evaluate_num_macro.py`. The LaTeX text is a `List Char`.
The regex `\\?n\s*(?:\\left)?\(` is realised by `matchNumAt` (match at the
head of a suffix) and `findNumMatch` (leftmost match, as `re.search`).
-/

/-- Tail of the trigger regex after the leading `\\?n`: `\s*(?:\\left)?\(`.
Returns the number of characters matched after the `n`. -/
def numTailLen : List Char → Nat → Option Nat
  | [], _ => none
  | '\\' :: 'l' :: 'e' :: 'f' :: 't' :: '(' :: _, acc => some (acc + 6)
  | '(' :: _, acc => some (acc + 1)
  | c :: rest, acc => if isPySpace c then numTailLen rest (acc + 1) else none

/-- Length of a match of `\\?n\s*(?:\\left)?\(` at the head of `l`,
if any. -/
def matchNumAt : List Char → Option Nat
  | '\\' :: 'n' :: rest => (numTailLen rest 0).map (· + 2)
  | 'n' :: rest => (numTailLen rest 0).map (· + 1)
  | _ => none

/-- Leftmost match of the trigger regex (`re.search`): start index and
match length, scanning from index `i`. -/
def findNumMatch : List Char → Nat → Option (Nat × Nat)
  | l, i =>
    match matchNumAt l with
    | some len => some (i, len)
    | none =>
      match l with
      | [] => none
      | _ :: t => findNumMatch t (i + 1)

/-- The balanced-parenthesis scan of the macro: from `pos` (text suffix
`l`) with open depth `depth`, counting `\left(`/`\right)` pairs and bare
parentheses, returning the position just after the closing token, or
`none` if the text ends first (unmatched parentheses). -/
def parenScan : List Char → Nat → Nat → Option Nat
  | [], _, _ => none
  | '\\' :: 'l' :: 'e' :: 'f' :: 't' :: '(' :: rest, pos, depth =>
    parenScan rest (pos + 6) (depth + 1)
  | '\\' :: 'r' :: 'i' :: 'g' :: 'h' :: 't' :: ')' :: rest, pos, depth =>
    if depth = 1 then some (pos + 7) else parenScan rest (pos + 7) (depth - 1)
  | '(' :: rest, pos, depth => parenScan rest (pos + 1) (depth + 1)
  | ')' :: rest, pos, depth =>
    if depth = 1 then some (pos + 1) else parenScan rest (pos + 1) (depth - 1)
  | _ :: rest, pos, depth => parenScan rest (pos + 1) depth

/-- Removal of the trailing `\right)` or `)` from the operand slice,
followed by another strip, exactly as the source does. -/
def stripCloser (l : List Char) : List Char :=
  if ("\\right)".toList).isSuffixOf l then pyStrip (l.take (l.length - 7))
  else if ([')']).isSuffixOf l then pyStrip (l.take (l.length - 1))
  else l

/-- The operand of a matched `n(...)` occurrence: the stripped slice
between the opening parenthesis and the scan's end position. -/
def numOperand (s : List Char) (startPos endPos : Nat) : List Char :=
  stripCloser (pyStrip (listSlice s startPos endPos))

/-- The failure marker `__NUM_FAILED_{start}__`. -/
def markerChars (n : Nat) : List Char :=
  "__NUM_FAILED_".toList ++ natDigits n ++ "__".toList

/-- Python `str.replace(pat, rep)` with explicit fuel: replace every
non-overlapping occurrence of `pat`, scanning left to right. Each step
consumes at least one character, so `s.length` fuel is always enough. -/
def pyReplaceFuel (pat rep : List Char) : Nat → List Char → List Char
  | 0, s => s
  | fuel + 1, s =>
    match s with
    | [] => []
    | c :: t =>
      if pat ≠ [] ∧ pat.isPrefixOf (c :: t) then
        rep ++ pyReplaceFuel pat rep fuel ((c :: t).drop pat.length)
      else c :: pyReplaceFuel pat rep fuel t

/-- Python `str.replace(pat, rep)`. -/
def pyReplace (s pat rep : List Char) : List Char :=
  pyReplaceFuel pat rep s.length s

/-- The rewrite loop of `evaluate_num_functions`: find the next trigger,
scan to the matching close, evaluate the operand through the oracle `ev`
(parse + substitution + numeric evaluation, `none` = exception), splice
the result in and repeat; on an unmatched parenthesis stop; on an oracle
failure insert the marker, restore it by textual replacement and stop.
`fuel` bounds the number of rewrites (the Python loop is unbounded). -/
def evaluate_num_functions (ev : List Char → Option (List Char)) : Nat → List Char → List Char
  | 0, s => s
  | fuel + 1, s =>
    match findNumMatch s 0 with
    | none => s
    | some (mstart, mlen) =>
      match parenScan (s.drop (mstart + mlen)) (mstart + mlen) 1 with
      | none => s
      | some endPos =>
        match ev (numOperand s (mstart + mlen) endPos) with
        | some resultStr =>
          evaluate_num_functions ev fuel (s.take mstart ++ resultStr ++ s.drop endPos)
        | none =>
          pyReplace (s.take mstart ++ markerChars mstart ++ s.drop endPos)
            (markerChars mstart) (listSlice s mstart endPos)

/-- Meta predicate of the macro: `use_result` is `re.search` of the same
trigger regex. -/
def meta_evaluate_num_functions (latex : List Char) : MetaFunctionResult :=
  ⟨5, "Evaluate num() Functions", (findNumMatch latex 0).isSome⟩

/-- Tail of the pattern the spec claims: `\s*\(`. -/
def specNumAfter : List Char → Bool
  | [] => false
  | c :: rest => if c = '(' then true else if isPySpace c then specNumAfter rest else false

/-- Head match of the pattern the spec claims for macro applicability:
an optional backslash, the literal letters `num`, optional whitespace and
an open parenthesis. -/
def specNumAt : List Char → Bool
  | '\\' :: 'n' :: 'u' :: 'm' :: rest => specNumAfter rest
  | 'n' :: 'u' :: 'm' :: rest => specNumAfter rest
  | _ => false

/-- Containment of the spec's claimed trigger pattern anywhere in the
text. -/
def specHasNumTrigger (l : List Char) : Bool :=
  l.tails.any specNumAt

/-!
Embedding of `evaluate_numerical.py`. The parsed expression and the
numeric black boxes live in oracle structures.
-/

/-- Oracle view of a parsed SymPy expression as `evaluate_numerical`
uses it: whether it is an `Equality`, its free symbol names, the
`lambdify` evaluation at substituted values (given in the order the
symbols were collected), the `lambdify([])` constant evaluation, and the
`to_latex` rendering. -/
structure SymExpr where
  isEq : Bool
  fvs : List String
  evalAt : List ℚ → Except String ℚ
  constEval : Except String ℚ
  latexRepr : String

/-- External collaborators of `evaluate_numerical`: `from_latex` and
`float(sympify(...))`. -/
structure EvalEnv where
  parse : String → Except String SymExpr
  sympifyFloat : String → Except String ℚ

/-- The `(symbol, values)` pairs collected from the context: variables
whose symbol occurs free in the expression and whose value list is
non-empty, in context order. -/
def collectCtxVars (fvs : List String) (vars : List Variable) : List (String × List String) :=
  vars.filterMap fun v =>
    if v.name ∈ fvs ∧ v.values ≠ [] then some (v.name, v.values) else none

/-- Left-to-right traversal of value strings through a fallible coercion,
stopping at the first raised exception: the model of a Python list
comprehension over oracle calls. -/
def mapExcept (f : String → Except String α) : List String → Except String (List α)
  | [] => .ok []
  | v :: rest =>
    match f v with
    | .error e => .error e
    | .ok x =>
      match mapExcept f rest with
      | .error e => .error e
      | .ok xs => .ok (x :: xs)

/-- One combination step: coerce every combination value with
`float(sympify(...))`, then evaluate the lambdified expression. -/
def evalCombo (env : EvalEnv) (expr : SymExpr) (combo : List String) : Except String ℚ :=
  match mapExcept env.sympifyFloat combo with
  | .error e => .error e
  | .ok vals => expr.evalAt vals

/-- The per-combination loop body: each result is rounded to ten decimal
places and rendered as text; a raised exception aborts the whole loop. -/
def comboSolutions (env : EvalEnv) (expr : SymExpr) : List (List String) → Except String (List String)
  | [] => .ok []
  | combo :: rest =>
    match evalCombo env expr combo with
    | .error e => .error e
    | .ok q =>
      match comboSolutions env expr rest with
      | .error e => .error e
      | .ok out => .ok (ratStr (round10 q) :: out)

/-- Body of the outer `try` of `evaluate_numerical`. -/
def evalBody (env : EvalEnv) (input : CellFunctionInput) (latex : String) : Except String (List String) :=
  match env.parse latex with
  | .error e => .error e
  | .ok expr =>
    let cvwv := collectCtxVars expr.fvs input.context.variables
    match
      (if cvwv ≠ [] then comboSolutions env expr (pyProduct (cvwv.map (·.2)))
       else
        .ok (match expr.constEval with
             | .ok r => [ratStr (round10 r)]
             | .error _ => [expr.latexRepr])) with
    | .error e => .error e
    | .ok visible => .ok (dedupSeen [] visible)

/-- `evaluate_numerical`: substitute context variables over the Cartesian
product of their values and evaluate; the context is returned unchanged,
and any exception becomes a single error line. -/
def evaluate_numerical (env : EvalEnv) (input : CellFunctionInput) : CellFunctionResult :=
  match evalBody env input input.cell_latex.trim with
  | .ok visible => ⟨visible, input.context⟩
  | .error e => ⟨["Error evaluating expression: " ++ e], input.context⟩

/-- `meta_evaluate_numerical`: applicability of numeric evaluation. -/
def meta_evaluate_numerical (env : EvalEnv) (input : CellFunctionInput) : MetaFunctionResult :=
  let latex := input.cell_latex.trim
  if latex = "" then ⟨75, "Numerical Evaluation", false⟩
  else
    match env.parse latex with
    | .error _ => ⟨75, "Numerical Evaluation", false⟩
    | .ok expr =>
      if expr.isEq then ⟨75, "Numerical Evaluation", false⟩
      else if latex.contains '=' then ⟨75, "Numerical Evaluation", false⟩
      else
        let ctxNames := input.context.variables.map (·.name)
        if expr.fvs.any (fun s => ctxNames.contains s) = false ∧ expr.fvs ≠ [] then
          ⟨75, "Numerical Evaluation", false⟩
        else ⟨75, "Numerical Evaluation", true⟩

/-- The value of a successful `Except`, with a default for the error
case (used only under a success hypothesis). -/
def exQ (e : Except String ℚ) : ℚ :=
  match e with
  | .ok q => q
  | .error _ => 0

/-- The name-and-values content of a context, forgetting each variable's
`numerical`/`analytical` tag. -/
def eraseTypes (c : Context) : List (String × List String) :=
  c.variables.map fun v => (v.name, v.values)

/-!
Embedding of `find_roots.py`.
-/

/-- Oracle view of the parsed expression as `find_roots` uses it: its
`Equality` flag, free symbol names and the lambdified one-variable
function. -/
structure RootExpr where
  isEq : Bool
  fvs : List String
  func : ℚ → Except String ℚ

/-- External collaborators of `find_roots`: `from_latex`, `fsolve` and
`brentq`. The solver oracles receive the lambdified function. -/
structure RootEnv where
  parse : String → Except String RootExpr
  fsolve : (ℚ → Except String ℚ) → ℚ → Except String ℚ
  brentq : (ℚ → Except String ℚ) → ℚ → ℚ → Except String ℚ

/-- The seven fixed initial guesses of the multi-start search. -/
def initialGuesses : List ℚ := [-100, -10, -1, 0, 1, 10, 100]

/-- One multi-start attempt: run `fsolve` from `guess`; if it returns a
candidate and the residual magnitude at the candidate is strictly below
`1e-6`, insert the candidate rounded to ten decimals; any exception is
swallowed. -/
def fsolveStep (fsolveO : (ℚ → Except String ℚ) → ℚ → Except String ℚ)
    (f : ℚ → Except String ℚ) (acc : List ℚ) (guess : ℚ) : List ℚ :=
  match fsolveO f guess with
  | .error _ => acc
  | .ok root =>
    match f root with
    | .error _ => acc
    | .ok v => if |v| < tol then insertRoot (round10 root) acc else acc

/-- The multi-start loop over the seven initial guesses. -/
def multiStartSearch (fsolveO : (ℚ → Except String ℚ) → ℚ → Except String ℚ)
    (f : ℚ → Except String ℚ) (acc : List ℚ) : List ℚ :=
  initialGuesses.foldl (fsolveStep fsolveO f) acc

/-- The bracketed attempt of `find_roots`: run `brentq` on
`[-1000, 1000]`, round the candidate to ten decimals first, and insert it
if the residual magnitude at the ROUNDED candidate is strictly below
`1e-6`; any exception is swallowed. -/
def brentqStep (brentqO : (ℚ → Except String ℚ) → ℚ → ℚ → Except String ℚ)
    (f : ℚ → Except String ℚ) (acc : List ℚ) : List ℚ :=
  match brentqO f (-1000) 1000 with
  | .error _ => acc
  | .ok root =>
    match f (round10 root) with
    | .error _ => acc
    | .ok v => if |v| < tol then insertRoot (round10 root) acc else acc

/-- The set `roots_found` built by `find_roots`: the multi-start sweep
followed by the bracketed attempt. -/
def findRootsSet (env : RootEnv) (f : ℚ → Except String ℚ) : List ℚ :=
  brentqStep env.brentq f (multiStartSearch env.fsolve f [])

/-- The bracketed attempt as the spec's claim words it: the candidate is
accepted when the residual magnitude AT THE CANDIDATE is strictly below
`1e-6`, and rounded to ten decimals on insertion. -/
def specBrentqStep (brentqO : (ℚ → Except String ℚ) → ℚ → ℚ → Except String ℚ)
    (f : ℚ → Except String ℚ) (acc : List ℚ) : List ℚ :=
  match brentqO f (-1000) 1000 with
  | .error _ => acc
  | .ok root =>
    match f root with
    | .error _ => acc
    | .ok v => if |v| < tol then insertRoot (round10 root) acc else acc

/-- The accepted-root set the claim describes for `find_roots`. -/
def specFindRootsSet (env : RootEnv) (f : ℚ → Except String ℚ) : List ℚ :=
  specBrentqStep env.brentq f (multiStartSearch env.fsolve f [])

/-- The output-formatting loop shared by `find_roots` and
`solve_numerical`: over the sorted roots, append one `"<var> = <value>"`
visible line and one `str(value)` solution string per root. -/
def formatSolutions (varName : String) (sortedRoots : List ℚ) : List String × List String :=
  sortedRoots.foldl
    (fun acc r => (acc.1 ++ [varName ++ " = " ++ ratStr r], acc.2 ++ [ratStr r])) ([], [])

/-- `find_roots`: multi-start plus bracketed numeric root search on a
one-variable expression; on success the solved variable is replaced in
the context by a `numerical` variable holding every root. -/
def find_roots (env : RootEnv) (input : CellFunctionInput) : CellFunctionResult :=
  match env.parse input.cell_latex.trim with
  | .error e => ⟨["Error finding roots: " ++ e], input.context⟩
  | .ok expr =>
    if expr.fvs.length ≠ 1 then
      ⟨["Root finding requires exactly one variable"], input.context⟩
    else
      let var := expr.fvs.headI
      let rootsFound := findRootsSet env expr.func
      if rootsFound ≠ [] then
        let fmt := formatSolutions var (sortRoots rootsFound)
        ⟨fmt.1,
         ⟨(input.context.variables.filter fun v => v.name ≠ var) ++
            [Variable.create_numerical var fmt.2]⟩⟩
      else
        ⟨["No roots found for expression"], ⟨input.context.variables⟩⟩

/-- `meta_find_roots`: applicability of root finding. -/
def meta_find_roots (env : RootEnv) (input : CellFunctionInput) : MetaFunctionResult :=
  let latex := input.cell_latex.trim
  if latex = "" then ⟨125, "Root Finder", false⟩
  else
    match env.parse latex with
    | .error _ => ⟨125, "Root Finder", false⟩
    | .ok expr =>
      if expr.isEq then ⟨125, "Root Finder", false⟩
      else if latex.contains '=' then ⟨125, "Root Finder", false⟩
      else if expr.fvs.length ≠ 1 then ⟨125, "Root Finder", false⟩
      else if (input.context.variables.map (·.name)).contains expr.fvs.headI then
        ⟨125, "Root Finder", false⟩
      else ⟨125, "Root Finder", true⟩

/-!
Embedding of `solve_numerical.py`.
-/

/-- Oracle view of the parsed equation as `solve_numerical` uses it: the
`Equality` flag (`lhs`/`rhs` present), free symbol names, and the
residual `lhs - rhs` lambdified in the target variable after
substituting the sympified bound values (given in collection order; `[]`
means no substitution). -/
structure SolveExpr where
  isEq : Bool
  fvs : List String
  resid : List String → ℚ → Except String ℚ

/-- External collaborators of `solve_numerical`: `from_latex`,
`sympify` (whose result is kept as text) and the two solvers. -/
structure SolveEnv where
  parse : String → Except String SolveExpr
  sympify : String → Except String String
  fsolve : (ℚ → Except String ℚ) → ℚ → Except String ℚ
  brentq : (ℚ → Except String ℚ) → ℚ → ℚ → Except String ℚ

/-- Variable selection of `solve_numerical`: the first candidate, in the
`sorted(..., key=str)` order, whose name is not bound in the context. -/
def selectSolveVar (fvs ctxNames : List String) : Option String :=
  (pySortedStr fvs).find? fun c => !(ctxNames.contains c)

/-- The bound-combination loop of `solve_numerical`: for each
combination, sympify every value (an exception escapes to the outer
handler) and run the multi-start sweep on the substituted residual,
accumulating into `acc`. No bracketed attempt happens here. -/
def comboAccum (env : SolveEnv) (resid : List String → ℚ → Except String ℚ) :
    List (List String) → List ℚ → Except String (List ℚ)
  | [], acc => .ok acc
  | combo :: rest, acc =>
    match mapExcept env.sympify combo with
    | .error e => .error e
    | .ok syms => comboAccum env resid rest (multiStartSearch env.fsolve (resid syms) acc)

/-- The root accumulation of `solve_numerical`: with bound variables,
only the per-combination multi-start loop; without them, the multi-start
sweep and then, only if it found nothing, the bracketed fallback. -/
def solveSearch (env : SolveEnv) (expr : SolveExpr) (cvwv : List (String × List String)) :
    Except String (List ℚ) :=
  if cvwv ≠ [] then comboAccum env expr.resid (pyProduct (cvwv.map (·.2))) []
  else
    let f := expr.resid []
    let s := multiStartSearch env.fsolve f []
    .ok (if s = [] then brentqStep env.brentq f s else s)

/-- Body of the outer `try` of `solve_numerical`. -/
def solveBody (env : SolveEnv) (input : CellFunctionInput) (latex : String) :
    Except String CellFunctionResult :=
  match env.parse latex with
  | .error e => .error e
  | .ok expr =>
    if expr.isEq = false then .ok ⟨["Unable to solve: not an equation"], input.context⟩
    else if expr.fvs = [] then .ok ⟨["No variables to solve for"], input.context⟩
    else
      match selectSolveVar expr.fvs (input.context.variables.map (·.name)) with
      | none => .ok ⟨["All variables already defined in context"], input.context⟩
      | some var =>
        let cvwv := input.context.variables.filterMap fun cv =>
          if cv.name ≠ var ∧ cv.name ∈ expr.fvs then some (cv.name, cv.values) else none
        match solveSearch env expr cvwv with
        | .error e => .error e
        | .ok allSolutions =>
          if allSolutions ≠ [] then
            let fmt := formatSolutions var (sortRoots allSolutions)
            .ok ⟨fmt.1,
              ⟨(input.context.variables.filter fun v => v.name ≠ var) ++
                 [Variable.create_numerical var fmt.2]⟩⟩
          else
            .ok ⟨["No numerical solution found for " ++ var], ⟨input.context.variables⟩⟩

/-- `solve_numerical`: numeric equation solving; any exception becomes a
single error line with the context unchanged. -/
def solve_numerical (env : SolveEnv) (input : CellFunctionInput) : CellFunctionResult :=
  match solveBody env input input.cell_latex.trim with
  | .ok r => r
  | .error e => ⟨["Error solving equation numerically: " ++ e], input.context⟩

/-- `meta_solve_numerical`: applicability of equation solving. -/
def meta_solve_numerical (env : SolveEnv) (input : CellFunctionInput) : MetaFunctionResult :=
  let latex := input.cell_latex.trim
  if latex = "" then ⟨150, "Numerical Solver", false⟩
  else
    match env.parse latex with
    | .error _ => ⟨150, "Numerical Solver", false⟩
    | .ok expr =>
      if expr.isEq = false then ⟨150, "Numerical Solver", false⟩
      else if expr.fvs = [] then ⟨150, "Numerical Solver", false⟩
      else
        let ctxNames := input.context.variables.map (·.name)
        if expr.fvs.any (fun s => !(ctxNames.contains s)) = false then
          ⟨150, "Numerical Solver", false⟩
        else ⟨150, "Numerical Solver", true⟩

/-- The text of a successful sympify call, with a default for the error
case (used only under a success hypothesis). -/
def exS (e : Except String String) : String :=
  match e with
  | .ok s => s
  | .error _ => ""

/-- The per-combination search the claim describes for the bound-variable
branch of `solve_numerical`: BOTH the multi-start sweep and the bracketed
attempt for every combination. -/
def specComboSearch (env : SolveEnv) (resid : List String → ℚ → Except String ℚ)
    (combos : List (List String)) : List ℚ :=
  combos.foldl
    (fun acc combo =>
      let f := resid (combo.map fun v => exS (env.sympify v))
      brentqStep env.brentq f (multiStartSearch env.fsolve f acc)) []

/-- Success test for an `Except` evaluation result. -/
def exIsOk (e : Except String ℚ) : Bool :=
  match e with
  | .ok _ => true
  | .error _ => false

/-- Acceptance of a multi-start candidate started from `guess`: `fsolve`
returns a candidate `c`, the residual at `c` evaluates to `v` with
`|v| < 1e-6`, and the accepted root is `c` rounded to ten decimals. -/
def fsolveAccepts (fsolveO : (ℚ → Except String ℚ) → ℚ → Except String ℚ)
    (f : ℚ → Except String ℚ) (guess r : ℚ) : Prop :=
  ∃ c v, fsolveO f guess = .ok c ∧ f c = .ok v ∧ |v| < tol ∧ r = round10 c

/-- Acceptance of the bracketed candidate as the code implements it: the
candidate is rounded first and the residual is evaluated at the rounded
value. -/
def brentqAccepts (brentqO : (ℚ → Except String ℚ) → ℚ → ℚ → Except String ℚ)
    (f : ℚ → Except String ℚ) (r : ℚ) : Prop :=
  ∃ c v, brentqO f (-1000) 1000 = .ok c ∧ f (round10 c) = .ok v ∧ |v| < tol ∧ r = round10 c

/-!
Concrete oracle instances used by counterexamples and witnesses.
-/

/-- C2 counterexample equation `x = a`: residual evaluation is the
identity in `x`, so `0` is a perfect root. -/
def C2cexExpr : SolveExpr := ⟨true, ["a", "x"], fun _ x => .ok x⟩

/-- C2 counterexample environment: `fsolve` always diverges while
`brentq` returns the perfect root `0`. -/
def C2cexEnv : SolveEnv :=
  ⟨fun _ => .ok C2cexExpr, fun v => .ok v, fun _ _ => .error "diverges", fun _ _ _ => .ok 0⟩

/-- C2 counterexample input: context binds `a` to the single value `1`. -/
def C2cexInput : CellFunctionInput := ⟨"x = a", ⟨[⟨"a", VarType.numerical, ["1"]⟩]⟩⟩

/-- C2 witness equation `x + a = 5` with `a` substituted from the
combination value. -/
def C2witExpr : SolveExpr :=
  ⟨true, ["a", "x"], fun syms x => .ok (x + (if syms = ["1"] then 1 else 2) - 5)⟩

/-- C2 witness environment: `fsolve` solves the affine residual exactly,
`brentq` always fails. -/
def C2witEnv : SolveEnv :=
  ⟨fun _ => .ok C2witExpr, fun v => .ok v,
   fun f g => match f g with | .ok v => .ok (g - v) | .error e => .error e,
   fun _ _ _ => .error "no sign change"⟩

/-- C2 witness input: `a` bound to the two values `1` and `2`. -/
def C2witInput : CellFunctionInput := ⟨"x + a = 5", ⟨[⟨"a", VarType.numerical, ["1", "2"]⟩]⟩⟩

/-- C3 witness expression with the single free variable `x` and residual
`x - 2`. -/
def C3witExpr : RootExpr := ⟨false, ["x"], fun x => .ok (x - 2)⟩

/-- C3 witness environment: every `fsolve` start converges to the root
`2`; `brentq` fails. -/
def C3witEnv : RootEnv :=
  ⟨fun _ => .ok C3witExpr, fun f g => (f g).map fun _ => 2, fun _ _ _ => .error "no sign change"⟩

/-- C3 witness input: the context already binds `a` and an old `x`. -/
def C3witInput : CellFunctionInput :=
  ⟨" x^2 - 4 ", ⟨[⟨"a", VarType.numerical, ["1"]⟩, ⟨"x", VarType.analytical, ["9"]⟩]⟩⟩

/-- C5 counterexample residual: exactly zero at `1/3` and one elsewhere;
rounding moves the candidate off the root. -/
def C5cexFunc : ℚ → Except String ℚ := fun x => if x = 1 / 3 then .ok 0 else .ok 1

/-- C5 counterexample environment: `fsolve` diverges, `brentq` returns
the exact root `1/3`. -/
def C5cexEnv : RootEnv :=
  ⟨fun _ => .error "unused", fun _ _ => .error "diverges", fun _ _ _ => .ok (1 / 3)⟩

/-- C7 witness expression `x^2` with one free variable. -/
def C7witExpr : SymExpr := ⟨false, ["x"], fun vals => .ok (vals.headI ^ 2), .error "fv", "x^2"⟩

/-- C7 witness environment: value strings coerce to the matching
rationals. -/
def C7witEnv : EvalEnv :=
  ⟨fun _ => .ok C7witExpr, fun v => .ok (if v = "2" then 2 else if v = "3" then 3 else 1)⟩

/-- C7 witness input: `x` carries the values `1, 2, 3, 1`, producing the
duplicate result `1` that deduplication must drop. -/
def C7witInput : CellFunctionInput := ⟨"x^2", ⟨[⟨"x", VarType.numerical, ["1", "2", "3", "1"]⟩]⟩⟩

/-- C9 witness environment with a failing parser for numeric evaluation. -/
def C9witEvalEnv : EvalEnv := ⟨fun _ => .error "parse failure", fun _ => .ok 0⟩

/-- C9 witness environment with a failing parser for root finding. -/
def C9witRootEnv : RootEnv :=
  ⟨fun _ => .error "parse failure", fun _ _ => .error "x", fun _ _ _ => .error "x"⟩

/-- C9 witness environment with a failing parser for equation solving. -/
def C9witSolveEnv : SolveEnv :=
  ⟨fun _ => .error "parse failure", fun v => .ok v, fun _ _ => .error "x", fun _ _ _ => .error "x"⟩

/-- C9 witness input. -/
def C9witInput : CellFunctionInput := ⟨"\\frac\x7b1\x7d\x7b", ⟨[⟨"a", VarType.numerical, ["1"]⟩]⟩⟩

/-- C10 counterexample environment (the parse outcome is irrelevant to
the counterexample). -/
def C10cexEnv : EvalEnv :=
  ⟨fun _ => .ok ⟨false, ["x"], fun vals => .ok vals.headI, .error "fv", "x"⟩, fun _ => .ok 1⟩

/-- C10 counterexample input with `x` tagged `numerical`. -/
def C10cexInputA : CellFunctionInput := ⟨"x", ⟨[⟨"x", VarType.numerical, ["1"]⟩]⟩⟩

/-- C10 counterexample input, identical except `x` is tagged
`analytical`. -/
def C10cexInputB : CellFunctionInput := ⟨"x", ⟨[⟨"x", VarType.analytical, ["1"]⟩]⟩⟩

/-!
Helper lemmas.
-/

theorem mem_insertRoot {r x : ℚ} {acc : List ℚ} :
    r ∈ insertRoot x acc ↔ r ∈ acc ∨ r = x := by
  unfold insertRoot
  by_cases h : x ∈ acc
  · simp only [if_pos h]
    exact ⟨Or.inl, fun hr => hr.elim id fun e => e ▸ h⟩
  · simp [if_neg h]

theorem mem_fsolveStep {fsolveO : (ℚ → Except String ℚ) → ℚ → Except String ℚ}
    {f : ℚ → Except String ℚ} {acc : List ℚ} {guess r : ℚ} :
    r ∈ fsolveStep fsolveO f acc guess ↔ r ∈ acc ∨ fsolveAccepts fsolveO f guess r := by
  unfold fsolveStep fsolveAccepts
  cases hfs : fsolveO f guess with
  | error e => simp [hfs]
  | ok root =>
    cases hfr : f root with
    | error e => simp [hfs, hfr]
    | ok v =>
      by_cases hv : |v| < tol
      · simp [hfs, hfr, hv, mem_insertRoot]
      · simp [hfs, hfr, hv]

theorem mem_foldl_fsolveStep {fsolveO : (ℚ → Except String ℚ) → ℚ → Except String ℚ}
    {f : ℚ → Except String ℚ} {r : ℚ} :
    ∀ (gs : List ℚ) (acc : List ℚ),
      r ∈ gs.foldl (fsolveStep fsolveO f) acc ↔
        r ∈ acc ∨ ∃ g ∈ gs, fsolveAccepts fsolveO f g r := by
  intro gs
  induction gs with
  | nil => simp
  | cons g gs ih =>
    intro acc
    rw [List.foldl_cons, ih, mem_fsolveStep]
    simp [or_assoc]

theorem mem_multiStartSearch {fsolveO : (ℚ → Except String ℚ) → ℚ → Except String ℚ}
    {f : ℚ → Except String ℚ} {acc : List ℚ} {r : ℚ} :
    r ∈ multiStartSearch fsolveO f acc ↔
      r ∈ acc ∨ ∃ g ∈ initialGuesses, fsolveAccepts fsolveO f g r := by
  unfold multiStartSearch
  exact mem_foldl_fsolveStep initialGuesses acc

theorem mem_brentqStep {brentqO : (ℚ → Except String ℚ) → ℚ → ℚ → Except String ℚ}
    {f : ℚ → Except String ℚ} {acc : List ℚ} {r : ℚ} :
    r ∈ brentqStep brentqO f acc ↔ r ∈ acc ∨ brentqAccepts brentqO f r := by
  unfold brentqStep brentqAccepts
  cases hb : brentqO f (-1000) 1000 with
  | error e => simp [hb]
  | ok root =>
    cases hfr : f (round10 root) with
    | error e => simp [hb, hfr]
    | ok v =>
      by_cases hv : |v| < tol
      · simp [hb, hfr, hv, mem_insertRoot]
      · simp [hb, hfr, hv]

theorem formatSolutions_eq (varName : String) (l : List ℚ) :
    formatSolutions varName l =
      (l.map fun r => varName ++ " = " ++ ratStr r, l.map ratStr) := by
  have key : ∀ (l : List ℚ) (a b : List String),
      l.foldl (fun acc r => (acc.1 ++ [varName ++ " = " ++ ratStr r], acc.2 ++ [ratStr r])) (a, b)
        = (a ++ l.map fun r => varName ++ " = " ++ ratStr r, b ++ l.map ratStr) := by
    intro l
    induction l with
    | nil => intro a b; simp
    | cons x xs ih => intro a b; rw [List.foldl_cons, ih]; simp
  unfold formatSolutions
  rw [key]
  simp

theorem evaluate_numerical_new_context (env : EvalEnv) (input : CellFunctionInput) :
    (evaluate_numerical env input).new_context = input.context := by
  unfold evaluate_numerical
  cases evalBody env input input.cell_latex.trim <;> rfl

/-!
Claim theorems.
-/

/-- C6: `evaluate_numerical` returns the caller's context unchanged in
every outcome, success or exception. -/
theorem claim_C6 (env : EvalEnv) (input : CellFunctionInput) :
    (evaluate_numerical env input).new_context = input.context :=
  evaluate_numerical_new_context env input

/-- C1: the macro applicability predicate does NOT implement the claimed
pattern `\\?num\s*\(`: on `num(2)` the code answers `use_result = false`
though the claimed pattern occurs, and on `\sin(x)` it answers
`use_result = true` though the claimed pattern does not occur (the code's
regex is `\\?n\s*(?:\\left)?\(`, a bare `n`). -/
theorem claim_C1 :
    (meta_evaluate_num_functions ("num(2)".toList)).use_result = false ∧
    specHasNumTrigger ("num(2)".toList) = true ∧
    (meta_evaluate_num_functions ("\\sin(x)".toList)).use_result = true ∧
    specHasNumTrigger ("\\sin(x)".toList) = false := by decide

/-- C5 (amended): a multi-start candidate is accepted exactly when the
residual magnitude at the candidate is strictly below `1e-6`, and is
rounded to ten decimals before insertion; the bracketed candidate is
rounded to ten decimals FIRST and accepted exactly when the residual
magnitude at the rounded candidate is strictly below `1e-6`. -/
theorem claim_C5 (env : RootEnv) (f : ℚ → Except String ℚ) (r : ℚ) :
    r ∈ findRootsSet env f ↔
      (∃ g ∈ initialGuesses, fsolveAccepts env.fsolve f g r) ∨
        brentqAccepts env.brentq f r := by
  unfold findRootsSet
  rw [mem_brentqStep, mem_multiStartSearch]
  simp

/-- C5 counterexample: `brentq` returns the exact root `1/3` whose
residual is `0 < 1e-6`, yet the code rejects it because the residual is
re-evaluated at the rounded candidate; the claim's criterion accepts it. -/
theorem claim_C5_counterexample :
    findRootsSet C5cexEnv C5cexFunc = [] ∧
    specFindRootsSet C5cexEnv C5cexFunc = [3333333333 / 10000000000] ∧
    C5cexFunc (1 / 3) = .ok 0 ∧ |(0 : ℚ)| < tol := by decide

/-- C9: for each of the three cell solution functions and their meta
predicates, a parse failure is caught: the meta predicates answer
`use_result = false` and the solution functions return a single
user-visible error line with the caller's context, never propagating the
fault. -/
theorem claim_C9 :
    (∀ (env : EvalEnv) (input : CellFunctionInput) (e : String),
        env.parse input.cell_latex.trim = .error e →
        meta_evaluate_numerical env input = ⟨75, "Numerical Evaluation", false⟩) ∧
    (∀ (env : RootEnv) (input : CellFunctionInput) (e : String),
        env.parse input.cell_latex.trim = .error e →
        meta_find_roots env input = ⟨125, "Root Finder", false⟩) ∧
    (∀ (env : SolveEnv) (input : CellFunctionInput) (e : String),
        env.parse input.cell_latex.trim = .error e →
        meta_solve_numerical env input = ⟨150, "Numerical Solver", false⟩) ∧
    (∀ (env : EvalEnv) (input : CellFunctionInput) (e : String),
        env.parse input.cell_latex.trim = .error e →
        evaluate_numerical env input =
          ⟨["Error evaluating expression: " ++ e], input.context⟩) ∧
    (∀ (env : RootEnv) (input : CellFunctionInput) (e : String),
        env.parse input.cell_latex.trim = .error e →
        find_roots env input = ⟨["Error finding roots: " ++ e], input.context⟩) ∧
    (∀ (env : SolveEnv) (input : CellFunctionInput) (e : String),
        env.parse input.cell_latex.trim = .error e →
        solve_numerical env input =
          ⟨["Error solving equation numerically: " ++ e], input.context⟩) := by
  refine ⟨?_, ?_, ?_, ?_, ?_, ?_⟩
  · intro env input e hp
    unfold meta_evaluate_numerical
    by_cases hl : input.cell_latex.trim = "" <;> simp [hl, hp]
  · intro env input e hp
    unfold meta_find_roots
    by_cases hl : input.cell_latex.trim = "" <;> simp [hl, hp]
  · intro env input e hp
    unfold meta_solve_numerical
    by_cases hl : input.cell_latex.trim = "" <;> simp [hl, hp]
  · intro env input e hp
    unfold evaluate_numerical evalBody
    rw [hp]
  · intro env input e hp
    unfold find_roots
    rw [hp]
  · intro env input e hp
    unfold solve_numerical solveBody
    rw [hp]

/-- C9 witness: the fallbacks at concrete failing environments. -/
theorem claim_C9_witness :
    meta_evaluate_numerical C9witEvalEnv C9witInput = ⟨75, "Numerical Evaluation", false⟩ ∧
    meta_find_roots C9witRootEnv C9witInput = ⟨125, "Root Finder", false⟩ ∧
    meta_solve_numerical C9witSolveEnv C9witInput = ⟨150, "Numerical Solver", false⟩ ∧
    evaluate_numerical C9witEvalEnv C9witInput =
      ⟨["Error evaluating expression: " ++ "parse failure"], C9witInput.context⟩ ∧
    find_roots C9witRootEnv C9witInput =
      ⟨["Error finding roots: " ++ "parse failure"], C9witInput.context⟩ ∧
    solve_numerical C9witSolveEnv C9witInput =
      ⟨["Error solving equation numerically: " ++ "parse failure"], C9witInput.context⟩ :=
  ⟨claim_C9.1 C9witEvalEnv C9witInput "parse failure" rfl,
   claim_C9.2.1 C9witRootEnv C9witInput "parse failure" rfl,
   claim_C9.2.2.1 C9witSolveEnv C9witInput "parse failure" rfl,
   claim_C9.2.2.2.1 C9witEvalEnv C9witInput "parse failure" rfl,
   claim_C9.2.2.2.2.1 C9witRootEnv C9witInput "parse failure" rfl,
   claim_C9.2.2.2.2.2 C9witSolveEnv C9witInput "parse failure" rfl⟩

theorem nodup_insertRoot {x : ℚ} {acc : List ℚ} (h : acc.Nodup) :
    (insertRoot x acc).Nodup := by
  unfold insertRoot
  by_cases hx : x ∈ acc
  · rwa [if_pos hx]
  · rw [if_neg hx]
    simp [List.nodup_append, h, hx]

theorem nodup_fsolveStep {fsolveO : (ℚ → Except String ℚ) → ℚ → Except String ℚ}
    {f : ℚ → Except String ℚ} {acc : List ℚ} {guess : ℚ} (h : acc.Nodup) :
    (fsolveStep fsolveO f acc guess).Nodup := by
  unfold fsolveStep
  cases hfs : fsolveO f guess with
  | error e => simpa [hfs] using h
  | ok root =>
    cases hfr : f root with
    | error e => simpa [hfs, hfr] using h
    | ok v =>
      by_cases hv : |v| < tol
      · simp only [hfs, hfr, hv, if_true]
        exact nodup_insertRoot h
      · simpa [hfs, hfr, hv] using h

theorem nodup_multiStartSearch {fsolveO : (ℚ → Except String ℚ) → ℚ → Except String ℚ}
    {f : ℚ → Except String ℚ} {acc : List ℚ} (h : acc.Nodup) :
    (multiStartSearch fsolveO f acc).Nodup := by
  unfold multiStartSearch
  have key : ∀ (gs : List ℚ) (acc : List ℚ), acc.Nodup →
      (gs.foldl (fsolveStep fsolveO f) acc).Nodup := by
    intro gs
    induction gs with
    | nil => intro acc h; exact h
    | cons g gs ih => intro acc h; exact ih _ (nodup_fsolveStep h)
  exact key _ _ h

theorem nodup_brentqStep {brentqO : (ℚ → Except String ℚ) → ℚ → ℚ → Except String ℚ}
    {f : ℚ → Except String ℚ} {acc : List ℚ} (h : acc.Nodup) :
    (brentqStep brentqO f acc).Nodup := by
  unfold brentqStep
  cases hb : brentqO f (-1000) 1000 with
  | error e => simpa [hb] using h
  | ok root =>
    cases hfr : f (round10 root) with
    | error e => simpa [hb, hfr] using h
    | ok v =>
      by_cases hv : |v| < tol
      · simp only [hb, hfr, hv, if_true]
        exact nodup_insertRoot h
      · simpa [hb, hfr, hv] using h

theorem nodup_findRootsSet (env : RootEnv) (f : ℚ → Except String ℚ) :
    (findRootsSet env f).Nodup :=
  nodup_brentqStep (nodup_multiStartSearch List.nodup_nil)

theorem sortRoots_perm (l : List ℚ) : List.Perm (sortRoots l) l :=
  List.perm_insertionSort ratLe l

theorem sortRoots_sorted (l : List ℚ) : (sortRoots l).Sorted ratLe :=
  List.sorted_insertionSort ratLe l

/-- C3: on success, `find_roots` prints one ascending `x = value` line
per distinct root and replaces `x` in the context by a `numerical`
variable holding the ascending renderings of every root; with no
accepted root, the single no-roots line is printed. The sorted root list
is ascending and duplicate-free. -/
theorem claim_C3 (env : RootEnv) (input : CellFunctionInput) (expr : RootExpr)
    (hparse : env.parse input.cell_latex.trim = .ok expr)
    (hone : expr.fvs.length = 1) :
    (findRootsSet env expr.func ≠ [] →
      find_roots env input =
        ⟨(sortRoots (findRootsSet env expr.func)).map
            (fun r => expr.fvs.headI ++ " = " ++ ratStr r),
         ⟨(input.context.variables.filter fun v => v.name ≠ expr.fvs.headI) ++
            [Variable.create_numerical expr.fvs.headI
              ((sortRoots (findRootsSet env expr.func)).map ratStr)]⟩⟩) ∧
    (findRootsSet env expr.func = [] →
      (find_roots env input).visible_solutions = ["No roots found for expression"]) ∧
    (sortRoots (findRootsSet env expr.func)).Sorted ratLe ∧
    (sortRoots (findRootsSet env expr.func)).Nodup := by
  refine ⟨?_, ?_, sortRoots_sorted _,
    ((sortRoots_perm _).nodup_iff).mpr (nodup_findRootsSet env expr.func)⟩
  · intro hne
    unfold find_roots
    rw [hparse]
    simp only [hone, ne_eq, not_true_eq_false, if_false, ite_false]
    rw [if_pos hne]
    simp [formatSolutions_eq]
  · intro hempty
    unfold find_roots
    rw [hparse]
    simp only [hone, ne_eq, not_true_eq_false, if_false, ite_false]
    rw [if_neg (by simp [hempty])]

/-- C3 witness: a concrete run with root set `{2}`, replacing the old
`x` binding. -/
theorem claim_C3_witness :
    findRootsSet C3witEnv C3witExpr.func ≠ [] ∧
    find_roots C3witEnv C3witInput =
      ⟨["x = 2"],
       ⟨[⟨"a", VarType.numerical, ["1"]⟩, Variable.create_numerical "x" ["2"]]⟩⟩ :=
  ⟨by decide,
   ((claim_C3 C3witEnv C3witInput C3witExpr rfl rfl).1 (by decide)).trans (by decide)⟩

theorem dedupSeen_congr :
    ∀ (l s₁ s₂ : List String), (∀ x, x ∈ s₁ ↔ x ∈ s₂) → dedupSeen s₁ l = dedupSeen s₂ l := by
  intro l
  induction l with
  | nil => intro _ _ _; rfl
  | cons a t ih =>
    intro s₁ s₂ h
    unfold dedupSeen
    by_cases ha : a ∈ s₁
    · rw [if_pos ha, if_pos ((h a).mp ha)]
      exact ih _ _ h
    · rw [if_neg ha, if_neg (fun c => ha ((h a).mpr c))]
      rw [ih (a :: s₁) (a :: s₂) (fun x => by simp [h x])]

theorem dedupSeen_cons_mem {a : String} {seen l : List String} (h : a ∈ seen) :
    dedupSeen seen (a :: l) = dedupSeen seen l := by
  simp [dedupSeen, h]

theorem dedupSeen_cons_not_mem {a : String} {seen l : List String} (h : a ∉ seen) :
    dedupSeen seen (a :: l) = a :: dedupSeen (a :: seen) l := by
  simp [dedupSeen, h]

theorem specDedup_eq_dedupSeen (l : List String) : specDedup l = dedupSeen [] l := by
  have key : ∀ (l acc : List String),
      l.foldl (fun acc a => if a ∈ acc then acc else acc ++ [a]) acc = acc ++ dedupSeen acc l := by
    intro l
    induction l with
    | nil => intro acc; simp [dedupSeen]
    | cons a t ih =>
      intro acc
      rw [List.foldl_cons]
      by_cases h : a ∈ acc
      · rw [if_pos h, ih, dedupSeen_cons_mem h]
      · rw [if_neg h, ih, dedupSeen_cons_not_mem h]
        rw [dedupSeen_congr t (acc ++ [a]) (a :: acc) (fun x => by simp [or_comm])]
        simp
  unfold specDedup
  rw [key]
  simp

theorem comboSolutions_ok (env : EvalEnv) (expr : SymExpr) :
    ∀ (combos : List (List String)),
      (∀ combo ∈ combos, exIsOk (evalCombo env expr combo) = true) →
      comboSolutions env expr combos =
        .ok (combos.map fun c => ratStr (round10 (exQ (evalCombo env expr c)))) := by
  intro combos
  induction combos with
  | nil => intro _; rfl
  | cons c cs ih =>
    intro h
    have hc := h c (List.mem_cons_self _ _)
    unfold comboSolutions
    cases hec : evalCombo env expr c with
    | error e => rw [hec] at hc; simp [exIsOk] at hc
    | ok q =>
      rw [ih fun x hx => h x (List.mem_cons_of_mem _ hx)]
      simp [hec, exQ]

/-- C7: with at least one bound free variable carrying values, and every
combination evaluating without exception, the visible solutions are
exactly the per-combination evaluations over the full Cartesian product
(leftmost value list varying slowest), each rounded to ten decimal
places and rendered as text, with duplicates removed preserving
first-occurrence order. -/
theorem claim_C7 (env : EvalEnv) (input : CellFunctionInput) (expr : SymExpr)
    (hparse : env.parse input.cell_latex.trim = .ok expr)
    (hcv : collectCtxVars expr.fvs input.context.variables ≠ [])
    (hok : ∀ combo ∈ pyProduct ((collectCtxVars expr.fvs input.context.variables).map (·.2)),
        exIsOk (evalCombo env expr combo) = true) :
    (evaluate_numerical env input).visible_solutions =
      specDedup ((pyProduct ((collectCtxVars expr.fvs input.context.variables).map (·.2))).map
        fun combo => ratStr (round10 (exQ (evalCombo env expr combo)))) := by
  unfold evaluate_numerical evalBody
  rw [hparse]
  simp only [ne_eq, hcv, not_false_eq_true, if_true, ite_true]
  rw [comboSolutions_ok env expr _ hok]
  rw [specDedup_eq_dedupSeen]

/-- C7 witness: `x^2` over `x ∈ {1, 2, 3, 1}` yields `1, 4, 9` with the
duplicate dropped. -/
theorem claim_C7_witness :
    collectCtxVars C7witExpr.fvs C7witInput.context.variables ≠ [] ∧
    (evaluate_numerical C7witEnv C7witInput).visible_solutions = ["1", "4", "9"] :=
  ⟨by decide,
   (claim_C7 C7witEnv C7witInput C7witExpr rfl (by decide) (by decide)).trans (by decide)⟩

theorem collectCtxVars_eraseTypes (fvs : List String) (c : Context) :
    collectCtxVars fvs c.variables =
      (eraseTypes c).filterMap fun p => if p.1 ∈ fvs ∧ p.2 ≠ [] then some p else none := by
  unfold collectCtxVars eraseTypes
  rw [List.filterMap_map]
  rfl

theorem evalBody_typeErased (env : EvalEnv) (inA inB : CellFunctionInput) (latex : String)
    (ht : eraseTypes inA.context = eraseTypes inB.context) :
    evalBody env inA latex = evalBody env inB latex := by
  unfold evalBody
  cases hp : env.parse latex with
  | error e => rfl
  | ok expr =>
    have hcol : collectCtxVars expr.fvs inA.context.variables =
        collectCtxVars expr.fvs inB.context.variables := by
      rw [collectCtxVars_eraseTypes, collectCtxVars_eraseTypes, ht]
    simp only [hcol]

/-- C10 (amended): the visible solutions of `evaluate_numerical` do not
depend on the variables' `numerical`/`analytical` tags — two inputs with
the same LaTeX and the same names and value strings produce equal
`visible_solutions` — while each returned context equals its own input
context (so the full results differ exactly by the input contexts). -/
theorem claim_C10 (env : EvalEnv) (inA inB : CellFunctionInput)
    (hl : inA.cell_latex = inB.cell_latex)
    (ht : eraseTypes inA.context = eraseTypes inB.context) :
    (evaluate_numerical env inA).visible_solutions =
      (evaluate_numerical env inB).visible_solutions ∧
    (evaluate_numerical env inA).new_context = inA.context ∧
    (evaluate_numerical env inB).new_context = inB.context := by
  refine ⟨?_, evaluate_numerical_new_context env inA, evaluate_numerical_new_context env inB⟩
  unfold evaluate_numerical
  rw [hl, evalBody_typeErased env inA inB inB.cell_latex.trim ht]
  cases evalBody env inB inB.cell_latex.trim <;> rfl

/-- C10 counterexample: flipping one variable's tag from `numerical` to
`analytical` leaves names, values and LaTeX identical, yet the full
`CellFunctionResult` values differ, because each result carries its own
input context (including the tags). -/
theorem claim_C10_counterexample :
    C10cexInputA.cell_latex = C10cexInputB.cell_latex ∧
    eraseTypes C10cexInputA.context = eraseTypes C10cexInputB.context ∧
    evaluate_numerical C10cexEnv C10cexInputA ≠ evaluate_numerical C10cexEnv C10cexInputB := by
  decide

/-- C10 witness: the amended statement at the concrete tag-flipped
inputs. -/
theorem claim_C10_witness :
    (evaluate_numerical C10cexEnv C10cexInputA).visible_solutions =
      (evaluate_numerical C10cexEnv C10cexInputB).visible_solutions :=
  (claim_C10 C10cexEnv C10cexInputA C10cexInputB rfl (by decide)).1

theorem mapExcept_sympify_ok (env : SolveEnv) :
    ∀ (combo syms : List String), mapExcept env.sympify combo = .ok syms →
      syms = combo.map fun v => exS (env.sympify v) := by
  intro combo
  induction combo with
  | nil =>
    intro syms h
    cases h
    rfl
  | cons a t ih =>
    intro syms h
    unfold mapExcept at h
    cases ha : env.sympify a with
    | error e => rw [ha] at h; exact absurd h (by simp)
    | ok s =>
      rw [ha] at h
      cases htm : mapExcept env.sympify t with
      | error e => rw [htm] at h; exact absurd h (by simp)
      | ok ys =>
        rw [htm] at h
        cases h
        simp [exS, ha, ih ys htm]

theorem comboAccum_ok_mem (env : SolveEnv) (resid : List String → ℚ → Except String ℚ) :
    ∀ (combos : List (List String)) (acc S : List ℚ),
      comboAccum env resid combos acc = .ok S →
      ∀ r, r ∈ S ↔ r ∈ acc ∨ ∃ combo ∈ combos, ∃ g ∈ initialGuesses,
        fsolveAccepts env.fsolve (resid (combo.map fun v => exS (env.sympify v))) g r := by
  intro combos
  induction combos with
  | nil =>
    intro acc S h r
    unfold comboAccum at h
    cases h
    simp
  | cons c cs ih =>
    intro acc S h r
    unfold comboAccum at h
    cases hm : mapExcept env.sympify c with
    | error e => rw [hm] at h; exact absurd h (by simp)
    | ok syms =>
      rw [hm] at h
      have hs : syms = c.map fun v => exS (env.sympify v) := mapExcept_sympify_ok env c syms hm
      rw [ih _ _ h r, mem_multiStartSearch, hs]
      simp [or_assoc]

/-- C2 (amended): when the equation has bound free variables besides the
solved one, `solve_numerical` runs, for each combination of the bound
variables' values, ONLY the multi-start local search from the seven
fixed guesses (no bracketed attempt in this branch), accumulating the
accepted roots of all combinations into one deduplicated set that is
printed in ascending order. -/
theorem claim_C2 (env : SolveEnv) (input : CellFunctionInput) (expr : SolveExpr)
    (var : String) (cvwv : List (String × List String)) (S : List ℚ)
    (hparse : env.parse input.cell_latex.trim = .ok expr)
    (hEq : expr.isEq = true)
    (hfv : expr.fvs ≠ [])
    (hsel : selectSolveVar expr.fvs (input.context.variables.map (·.name)) = some var)
    (hcvwv : cvwv = input.context.variables.filterMap fun cv =>
        if cv.name ≠ var ∧ cv.name ∈ expr.fvs then some (cv.name, cv.values) else none)
    (hne : cvwv ≠ [])
    (hS : comboAccum env expr.resid (pyProduct (cvwv.map (·.2))) [] = .ok S) :
    (∀ r, r ∈ S ↔ ∃ combo ∈ pyProduct (cvwv.map (·.2)), ∃ g ∈ initialGuesses,
        fsolveAccepts env.fsolve (expr.resid (combo.map fun v => exS (env.sympify v))) g r) ∧
    (S ≠ [] → solve_numerical env input =
        ⟨(sortRoots S).map (fun r => var ++ " = " ++ ratStr r),
         ⟨(input.context.variables.filter fun v => v.name ≠ var) ++
            [Variable.create_numerical var ((sortRoots S).map ratStr)]⟩⟩) ∧
    (S = [] → (solve_numerical env input).visible_solutions =
        ["No numerical solution found for " ++ var]) := by
  have hbody : solveBody env input input.cell_latex.trim =
      (if S ≠ [] then
        .ok ⟨(sortRoots S).map (fun r => var ++ " = " ++ ratStr r),
          ⟨(input.context.variables.filter fun v => v.name ≠ var) ++
             [Variable.create_numerical var ((sortRoots S).map ratStr)]⟩⟩
       else .ok ⟨["No numerical solution found for " ++ var], ⟨input.context.variables⟩⟩) := by
    unfold solveBody
    rw [hparse]
    simp only [hEq, Bool.true_eq_false, if_false, ite_false, hfv, hsel]
    rw [← hcvwv]
    unfold solveSearch
    rw [if_pos hne, hS]
    by_cases hSe : S = []
    · simp [hSe]
    · simp only [ne_eq, hSe, not_false_eq_true, if_true, ite_true, formatSolutions_eq]
  refine ⟨?_, ?_, ?_⟩
  · intro r
    have := comboAccum_ok_mem env expr.resid _ _ _ hS r
    simpa using this
  · intro hSne
    unfold solve_numerical
    rw [hbody, if_pos hSne]
  · intro hSe
    unfold solve_numerical
    rw [hbody, if_neg (by simp [hSe])]

/-- C2 counterexample: with a bound variable present, `brentq` would
return the perfect root `0` (accepted by the claim's combined
multi-start + bracketed search), yet the code reports no solution,
because the bound-variable branch never attempts the bracketed search. -/
theorem claim_C2_counterexample :
    (solve_numerical C2cexEnv C2cexInput).visible_solutions =
      ["No numerical solution found for x"] ∧
    specComboSearch C2cexEnv C2cexExpr.resid (pyProduct [["1"]]) = [0] := by decide

/-- C2 witness: `x + a = 5` with `a ∈ {1, 2}`, the multi-start sweep
finding `4` then `3`, printed in ascending order with the context
gaining `x`. -/
theorem claim_C2_witness :
    comboAccum C2witEnv C2witExpr.resid (pyProduct [["1", "2"]]) [] = .ok [4, 3] ∧
    solve_numerical C2witEnv C2witInput =
      ⟨["x = 3", "x = 4"],
       ⟨[⟨"a", VarType.numerical, ["1", "2"]⟩, Variable.create_numerical "x" ["3", "4"]]⟩⟩ :=
  ⟨by decide,
   ((claim_C2 C2witEnv C2witInput C2witExpr "x" [("a", ["1", "2"])] [4, 3]
      rfl rfl (by decide) (by decide) (by decide) (by decide) (by decide)).2.1
      (by decide)).trans (by decide)⟩

theorem charListLe_refl : ∀ (a : List Char), charListLe a a = true := by
  intro a
  induction a with
  | nil => rfl
  | cons x xs ih =>
    unfold charListLe
    simp [Nat.lt_irrefl, ih]

theorem charListLe_total : ∀ (a b : List Char), charListLe a b = true ∨ charListLe b a = true := by
  intro a
  induction a with
  | nil => intro b; left; rfl
  | cons x xs ih =>
    intro b
    cases b with
    | nil => right; rfl
    | cons y ys =>
      unfold charListLe
      rcases Nat.lt_trichotomy x.toNat y.toNat with h | h | h
      · left; simp [h]
      · have hxy : ¬ x.toNat < y.toNat := by omega
        have hyx : ¬ y.toNat < x.toNat := by omega
        simp only [hxy, hyx, if_false, ite_false]
        exact ih ys
      · right; simp [h]

theorem charListLe_trans :
    ∀ (a b c : List Char), charListLe a b = true → charListLe b c = true →
      charListLe a c = true := by
  intro a
  induction a with
  | nil => intro b c _ _; rfl
  | cons x xs ih =>
    intro b c hab hbc
    cases b with
    | nil => simp [charListLe] at hab
    | cons y ys =>
      cases c with
      | nil => simp [charListLe] at hbc
      | cons z zs =>
        unfold charListLe at hab hbc ⊢
        by_cases hxy : x.toNat < y.toNat
        · by_cases hyz : y.toNat < z.toNat
          · have h : x.toNat < z.toNat := by omega
            simp [h]
          · by_cases hzy : z.toNat < y.toNat
            · rw [if_neg hyz, if_pos hzy] at hbc
              exact absurd hbc (by simp)
            · have h : x.toNat < z.toNat := by omega
              simp [h]
        · by_cases hyx : y.toNat < x.toNat
          · rw [if_neg hxy, if_pos hyx] at hab
            exact absurd hab (by simp)
          · rw [if_neg hxy, if_neg hyx] at hab
            by_cases hyz : y.toNat < z.toNat
            · have h : x.toNat < z.toNat := by omega
              simp [h]
            · by_cases hzy : z.toNat < y.toNat
              · rw [if_neg hyz, if_pos hzy] at hbc
                exact absurd hbc (by simp)
              · rw [if_neg hyz, if_neg hzy] at hbc
                have hxz : ¬ x.toNat < z.toNat := by omega
                have hzx : ¬ z.toNat < x.toNat := by omega
                rw [if_neg hxz, if_neg hzx]
                exact ih ys zs hab hbc

theorem charListLe_antisymm :
    ∀ (a b : List Char), charListLe a b = true → charListLe b a = true → a = b := by
  intro a
  induction a with
  | nil =>
    intro b _ hba
    cases b with
    | nil => rfl
    | cons y ys => simp [charListLe] at hba
  | cons x xs ih =>
    intro b hab hba
    cases b with
    | nil => simp [charListLe] at hab
    | cons y ys =>
      unfold charListLe at hab hba
      by_cases hxy : x.toNat < y.toNat
      · rw [if_neg (by omega), if_pos hxy] at hba
        exact absurd hba (by simp)
      · by_cases hyx : y.toNat < x.toNat
        · rw [if_neg hxy, if_pos hyx] at hab
          exact absurd hab (by simp)
        · rw [if_neg hxy, if_neg hyx] at hab
          rw [if_neg hyx, if_neg hxy] at hba
          have hnat : x.toNat = y.toNat := by omega
          have hx : x = y := Char.ext (UInt32.eq_of_val_eq (Fin.ext hnat))
          rw [hx, ih ys hab hba]

theorem strLe_refl (a : String) : strLe a a :=
  charListLe_refl a.toList

theorem strLe_antisymm {a b : String} (h1 : strLe a b) (h2 : strLe b a) : a = b :=
  String.ext (charListLe_antisymm a.toList b.toList h1 h2)

theorem find?_sorted_eq_some_iff :
    ∀ {l : List String}, List.Sorted strLe l → ∀ (p : String → Bool) (v : String),
      (l.find? p = some v ↔ v ∈ l ∧ p v = true ∧ ∀ w ∈ l, p w = true → strLe v w) := by
  intro l
  induction l with
  | nil => intro _ p v; simp
  | cons a t ih =>
    intro hs p v
    by_cases hpa : p a = true
    · rw [List.find?_cons_of_pos _ hpa]
      constructor
      · intro h
        cases h
        refine ⟨List.mem_cons_self _ _, hpa, ?_⟩
        intro w hw _
        rcases List.mem_cons.mp hw with rfl | hw
        · exact strLe_refl w
        · exact (List.sorted_cons.mp hs).1 w hw
      · rintro ⟨hv, hpv, hmin⟩
        rcases List.mem_cons.mp hv with rfl | hv
        · rfl
        · have h1 : strLe a v := (List.sorted_cons.mp hs).1 v hv
          have h2 : strLe v a := hmin a (List.mem_cons_self _ _) hpa
          rw [strLe_antisymm h2 h1]
    · rw [List.find?_cons_of_neg _ hpa]
      rw [ih (List.sorted_cons.mp hs).2 p v]
      constructor
      · rintro ⟨hv, hpv, hmin⟩
        refine ⟨List.mem_cons_of_mem _ hv, hpv, ?_⟩
        intro w hw hpw
        rcases List.mem_cons.mp hw with rfl | hw
        · exact absurd hpw hpa
        · exact hmin w hw hpw
      · rintro ⟨hv, hpv, hmin⟩
        rcases List.mem_cons.mp hv with rfl | hv
        · exact absurd hpv hpa
        · exact ⟨hv, hpv, fun w hw hpw => hmin w (List.mem_cons_of_mem _ hw) hpw⟩

/-- C8: `solve_numerical`'s variable selection returns exactly the
name-minimal (Python string order) free variable not bound in the
context, and is invariant under any reordering of the free-symbol list
(Python sets iterate in arbitrary order; `sorted` makes the choice
deterministic). -/
theorem claim_C8 :
    (∀ (fvs ctxNames : List String) (v : String),
        selectSolveVar fvs ctxNames = some v ↔
          v ∈ fvs ∧ v ∉ ctxNames ∧ ∀ w ∈ fvs, w ∉ ctxNames → strLe v w) ∧
    (∀ (fvs fvs2 ctxNames : List String), List.Perm fvs fvs2 →
        selectSolveVar fvs ctxNames = selectSolveVar fvs2 ctxNames) := by
  haveI : IsTotal String strLe := ⟨fun a b => charListLe_total a.toList b.toList⟩
  haveI : IsTrans String strLe :=
    ⟨fun a b c => charListLe_trans a.toList b.toList c.toList⟩
  haveI : IsAntisymm String strLe := ⟨fun _ _ h1 h2 => strLe_antisymm h1 h2⟩
  constructor
  · intro fvs ctxNames v
    unfold selectSolveVar pySortedStr
    rw [find?_sorted_eq_some_iff (List.sorted_insertionSort strLe fvs)]
    simp [List.mem_insertionSort, List.elem_iff]
  · intro fvs fvs2 ctxNames h
    unfold selectSolveVar pySortedStr
    rw [List.eq_of_perm_of_sorted
      ((List.perm_insertionSort strLe fvs).trans
        (h.trans (List.perm_insertionSort strLe fvs2).symm))
      (List.sorted_insertionSort strLe fvs)
      (List.sorted_insertionSort strLe fvs2)]

/-- C8 witness: concrete selections. -/
theorem claim_C8_witness :
    selectSolveVar ["x", "a"] ["a"] = some "x" ∧
    selectSolveVar ["b", "c"] [] = selectSolveVar ["c", "b"] [] :=
  ⟨(claim_C8.1 ["x", "a"] ["a"] "x").mpr ⟨by decide, by decide, by decide⟩,
   claim_C8.2 ["b", "c"] ["c", "b"] [] (by decide)⟩

theorem parenScan_le_aux : ∀ (n : Nat) (l : List Char), l.length ≤ n →
    ∀ pos depth e, parenScan l pos depth = some e → pos ≤ e := by
  intro n
  induction n with
  | zero =>
    intro l hl pos depth e h
    have hnil : l = [] := List.eq_nil_of_length_eq_zero (Nat.le_zero.mp hl)
    subst hnil
    simp [parenScan] at h
  | succ n ih =>
    intro l hl pos depth e h
    unfold parenScan at h
    split at h
    · cases h
    · have := ih _ (by simp_all <;> omega) _ _ _ h; omega
    · split at h
      · cases h; omega
      · have := ih _ (by simp_all <;> omega) _ _ _ h; omega
    · have := ih _ (by simp_all <;> omega) _ _ _ h; omega
    · split at h
      · cases h; omega
      · have := ih _ (by simp_all <;> omega) _ _ _ h; omega
    · have := ih _ (by simp_all <;> omega) _ _ _ h; omega

theorem parenScan_le (l : List Char) (pos depth e : Nat)
    (h : parenScan l pos depth = some e) : pos ≤ e :=
  parenScan_le_aux l.length l (le_refl _) pos depth e h

theorem pyReplaceFuel_no_occurrence (pat rep : List Char) :
    ∀ (fuel : Nat) (s : List Char), ¬ (pat <:+: s) → pyReplaceFuel pat rep fuel s = s := by
  intro fuel
  induction fuel with
  | zero => intro s _; rfl
  | succ f ih =>
    intro s hs
    unfold pyReplaceFuel
    cases s with
    | nil => rfl
    | cons c t =>
      dsimp only
      rw [if_neg]
      · rw [ih t fun hc => hs (List.infix_cons hc)]
      · rintro ⟨_, hpref⟩
        exact hs (List.isPrefixOf_iff_prefix.mp hpref).isInfix

theorem pyReplaceFuel_first (pat rep suf : List Char) (hne : pat ≠ [])
    (hsuf : ¬ (pat <:+: suf)) :
    ∀ (pre : List Char) (fuel : Nat), pre.length < fuel →
      (∀ i, i < pre.length → ¬ (pat <+: ((pre ++ (pat ++ suf)).drop i))) →
      pyReplaceFuel pat rep fuel (pre ++ (pat ++ suf)) = pre ++ (rep ++ suf) := by
  intro pre
  induction pre with
  | nil =>
    intro fuel hf _
    cases fuel with
    | zero => omega
    | succ f =>
      simp only [List.nil_append]
      unfold pyReplaceFuel
      rcases hp : pat with _ | ⟨p, pt⟩
      · exact absurd hp hne
      · rw [List.cons_append]
        dsimp only
        rw [if_pos ⟨by rw [← hp]; exact hne, by
          rw [← List.cons_append, ← hp]
          exact List.isPrefixOf_iff_prefix.mpr (List.prefix_append pat suf)⟩]
        rw [← List.cons_append, ← hp, List.drop_left]
        rw [pyReplaceFuel_no_occurrence pat rep f suf hsuf]
  | cons c pre' ih =>
    intro fuel hf hpre
    cases fuel with
    | zero => omega
    | succ f =>
      rw [List.cons_append]
      unfold pyReplaceFuel
      dsimp only
      rw [if_neg]
      · have hpre' : ∀ i, i < pre'.length →
            ¬ (pat <+: ((pre' ++ (pat ++ suf)).drop i)) := by
          intro i hi
          have := hpre (i + 1) (by simp only [List.length_cons]; omega)
          rwa [List.cons_append, List.drop_succ_cons] at this
        rw [ih f (by simp only [List.length_cons] at hf; omega) hpre', List.cons_append]
      · rintro ⟨_, hpref⟩
        have h0 := hpre 0 (by simp only [List.length_cons]; omega)
        rw [List.drop_zero, List.cons_append] at h0
        exact h0 (List.isPrefixOf_iff_prefix.mp hpref)

theorem decDigitChar_isDigit {d : Nat} (hd : d < 10) : (decDigitChar d).isDigit = true := by
  interval_cases d <;> decide

theorem natDigitsAux_ne_nil : ∀ (fuel n : Nat) (acc : List Char),
    natDigitsAux (fuel + 1) n acc ≠ [] := by
  intro fuel
  induction fuel with
  | zero =>
    intro n acc
    unfold natDigitsAux
    by_cases h : n < 10
    · simp [h]
    · simp only [h, if_false, ite_false]
      unfold natDigitsAux
      simp
  | succ f ih =>
    intro n acc
    unfold natDigitsAux
    by_cases h : n < 10
    · simp [h]
    · simp only [h, if_false, ite_false]
      exact ih _ _

theorem natDigits_ne_nil (n : Nat) : natDigits n ≠ [] :=
  natDigitsAux_ne_nil n n []

theorem natDigitsAux_digits : ∀ (fuel n : Nat) (acc : List Char),
    (∀ c ∈ acc, c.isDigit = true) → ∀ c ∈ natDigitsAux fuel n acc, c.isDigit = true := by
  intro fuel
  induction fuel with
  | zero => intro n acc hacc c hc; exact hacc c hc
  | succ f ih =>
    intro n acc hacc c hc
    unfold natDigitsAux at hc
    by_cases h : n < 10
    · rw [if_pos h] at hc
      rcases List.mem_cons.mp hc with rfl | hc
      · exact decDigitChar_isDigit h
      · exact hacc c hc
    · rw [if_neg h] at hc
      refine ih _ _ ?_ c hc
      intro x hx
      rcases List.mem_cons.mp hx with rfl | hx
      · exact decDigitChar_isDigit (Nat.mod_lt _ (by omega))
      · exact hacc x hx

theorem natDigits_digits (n : Nat) : ∀ c ∈ natDigits n, c.isDigit = true :=
  natDigitsAux_digits (n + 1) n [] (by simp)

theorem prefix_of_append_of_le {l a b : List Char} (h : l <+: a ++ b)
    (hl : l.length ≤ a.length) : l <+: a := by
  have he : l = (a ++ b).take l.length := List.prefix_iff_eq_take.mp h
  have h2 : (a ++ b).take l.length = a.take l.length := by
    rw [List.take_append_eq_append_take, Nat.sub_eq_zero_of_le hl, List.take_zero,
      List.append_nil]
  rw [he, h2]
  exact List.take_prefix _ _

theorem markerChars_decomp (n : Nat) :
    markerChars n = "__NUM_FAILED_".toList ++ (natDigits n ++ "__".toList) := by
  unfold markerChars
  rw [List.append_assoc]

theorem headMarker_length : ("__NUM_FAILED_".toList).length = 13 := by decide

theorem markerChars_length (n : Nat) : 16 ≤ (markerChars n).length := by
  rw [markerChars_decomp]
  have h1 : 1 ≤ (natDigits n).length := List.length_pos.mpr (natDigits_ne_nil n)
  simp only [List.length_append, headMarker_length]
  have h2 : ("__".toList).length = 2 := by decide
  omega

theorem take_eq_of_prefix_of_le {l₁ l₂ : List Char} (h : l₁ <+: l₂) {n : Nat}
    (hn : n ≤ l₁.length) : l₂.take n = l₁.take n := by
  obtain ⟨t, ht⟩ := h
  rw [← ht, List.take_append_eq_append_take, Nat.sub_eq_zero_of_le hn, List.take_zero,
    List.append_nil]

theorem drop_prefix_of_prefix {l₁ l₂ : List Char} (h : l₁ <+: l₂) {n : Nat}
    (hn : n ≤ l₁.length) : l₁.drop n <+: l₂.drop n := by
  obtain ⟨t, ht⟩ := h
  refine ⟨t, ?_⟩
  rw [← ht, List.drop_append_eq_append_drop, Nat.sub_eq_zero_of_le hn, List.drop_zero]

theorem markerChars_take2 (n : Nat) : (markerChars n).take 2 = ['_', '_'] := by
  rw [markerChars_decomp]
  rw [show ("__NUM_FAILED_".toList ++ (natDigits n ++ "__".toList)).take 2 =
      ("__NUM_FAILED_".toList).take 2 from
    take_eq_of_prefix_of_le (List.prefix_append _ _) (by decide)]
  decide

theorem marker_no_early (s : List Char) (m e : Nat)
    (hclean : ¬ (("__NUM_FAILED_".toList) <:+: s)) :
    ∀ i, i < (s.take m).length →
      ¬ ((markerChars m) <+: ((s.take m ++ (markerChars m ++ s.drop e)).drop i)) := by
  intro i hi hpref
  have hidrop : ((s.take m) ++ (markerChars m ++ s.drop e)).drop i =
      (s.take m).drop i ++ (markerChars m ++ s.drop e) := by
    rw [List.drop_append_eq_append_drop, Nat.sub_eq_zero_of_le (le_of_lt hi), List.drop_zero]
  rw [hidrop] at hpref
  have hklen : ((s.take m).drop i).length = (s.take m).length - i := List.length_drop _ _
  have hmlen := markerChars_length m
  by_cases hk : 13 ≤ (s.take m).length - i
  · have hh : ("__NUM_FAILED_".toList) <+: markerChars m := by
      rw [markerChars_decomp]
      exact List.prefix_append _ _
    have h1 : ("__NUM_FAILED_".toList) <+: (s.take m).drop i ++ (markerChars m ++ s.drop e) :=
      hh.trans hpref
    have h2 : ("__NUM_FAILED_".toList) <+: (s.take m).drop i := by
      refine prefix_of_append_of_le h1 ?_
      rw [hklen, headMarker_length]
      exact hk
    exact hclean ((h2.isInfix.trans (List.drop_suffix i (s.take m)).isInfix).trans
      (List.take_prefix m s).isInfix)
  · push_neg at hk
    have hk1 : 1 ≤ (s.take m).length - i := by omega
    have hdropk : (markerChars m).drop (((s.take m).drop i).length) <+:
        ((s.take m).drop i ++ (markerChars m ++ s.drop e)).drop (((s.take m).drop i).length) :=
      drop_prefix_of_prefix hpref (by rw [hklen]; omega)
    rw [List.drop_left] at hdropk
    rw [hklen] at hdropk
    have h2le : 2 ≤ ((markerChars m).drop ((s.take m).length - i)).length := by
      rw [List.length_drop]
      omega
    have htake2 : (markerChars m ++ s.drop e).take 2 =
        ((markerChars m).drop ((s.take m).length - i)).take 2 :=
      take_eq_of_prefix_of_le hdropk h2le
    have htake2' : (markerChars m ++ s.drop e).take 2 = ['_', '_'] := by
      rw [take_eq_of_prefix_of_le (List.prefix_append _ _) (by omega)]
      exact markerChars_take2 m
    have hpp : (['_', '_'] : List Char) <+: (markerChars m).drop ((s.take m).length - i) := by
      rw [← htake2', htake2]
      exact List.take_prefix _ _
    have hdecomp : (markerChars m).drop ((s.take m).length - i) =
        ("__NUM_FAILED_".toList).drop ((s.take m).length - i) ++ (natDigits m ++ "__".toList) := by
      rw [markerChars_decomp, List.drop_append_eq_append_drop,
        show ((s.take m).length - i) - ("__NUM_FAILED_".toList).length = 0 from
          Nat.sub_eq_zero_of_le (by rw [headMarker_length]; omega), List.drop_zero]
    rw [hdecomp] at hpp
    obtain ⟨k, hkdef⟩ : ∃ k, (s.take m).length - i = k := ⟨_, rfl⟩
    rw [hkdef] at hpp hk hk1
    by_cases hk12 : k ≤ 11
    · have hpp2 : (['_', '_'] : List Char) <+: ("__NUM_FAILED_".toList).drop k := by
        refine prefix_of_append_of_le hpp ?_
        rw [List.length_drop, headMarker_length]
        show 2 ≤ 13 - k
        omega
      interval_cases k <;> exact absurd hpp2 (by decide)
    · have hkeq : k = 12 := by omega
      rw [hkeq] at hpp
      rw [show ("__NUM_FAILED_".toList).drop 12 = ['_'] from by decide] at hpp
      rcases hnd : natDigits m with _ | ⟨d, ds⟩
      · exact absurd hnd (natDigits_ne_nil m)
      · rw [hnd] at hpp
        rw [List.cons_append, List.cons_append] at hpp
        have hd := (List.cons_prefix_cons.mp ((List.cons_prefix_cons.mp hpp).2)).1
        have hdig : d.isDigit = true := natDigits_digits m d (by rw [hnd]; exact List.mem_cons_self _ _)
        rw [← hd] at hdig
        exact absurd hdig (by decide)

theorem take_slice_drop (s : List Char) (m e : Nat) (hme : m ≤ e) :
    s.take m ++ (listSlice s m e ++ s.drop e) = s := by
  unfold listSlice
  have h1 : (s.drop m).drop (e - m) = s.drop e := by
    rw [List.drop_drop]
    congr 1
    omega
  rw [← h1, List.take_append_drop, List.take_append_drop]

theorem marker_restore (s : List Char) (m e : Nat) (hme : m ≤ e)
    (hclean : ¬ (("__NUM_FAILED_".toList) <:+: s)) :
    pyReplace (s.take m ++ markerChars m ++ s.drop e) (markerChars m) (listSlice s m e) = s := by
  have hne : markerChars m ≠ [] := by
    intro h
    have := markerChars_length m
    rw [h] at this
    simp at this
  have hheadpre : ("__NUM_FAILED_".toList) <+: markerChars m := by
    rw [markerChars_decomp]
    exact List.prefix_append _ _
  have hsuf : ¬ (markerChars m <:+: s.drop e) := by
    intro hin
    exact hclean ((hheadpre.isInfix.trans hin).trans (List.drop_suffix e s).isInfix)
  have hfuel : (s.take m).length < (s.take m ++ (markerChars m ++ s.drop e)).length := by
    simp only [List.length_append]
    have := markerChars_length m
    omega
  unfold pyReplace
  rw [List.append_assoc]
  rw [pyReplaceFuel_first (markerChars m) (listSlice s m e) (s.drop e) hne hsuf (s.take m)
    ((s.take m ++ (markerChars m ++ s.drop e)).length) hfuel (marker_no_early s m e hclean)]
  exact take_slice_drop s m e hme

/-- C4 (amended): in the num() macro rewrite loop, if the evaluation of a
matched occurrence fails, and the current text does not contain the
substring `__NUM_FAILED_`, then the pass returns the text completely
unchanged: the failed occurrence's span is restored character for
character and no further occurrence is rewritten. (The unamended claim,
quantified over every input string, is refuted by
`claim_C4_counterexample`: when the text already contains the marker
prefix, the textual marker-restore step rewrites those unrelated
occurrences as well.) -/
theorem claim_C4 (ev : List Char → Option (List Char)) (fuel : Nat) (s : List Char)
    (mstart mlen endPos : Nat)
    (hfind : findNumMatch s 0 = some (mstart, mlen))
    (hscan : parenScan (s.drop (mstart + mlen)) (mstart + mlen) 1 = some endPos)
    (hev : ev (numOperand s (mstart + mlen) endPos) = none)
    (hclean : ¬ (("__NUM_FAILED_".toList) <:+: s)) :
    evaluate_num_functions ev (fuel + 1) s = s := by
  have hme : mstart ≤ endPos :=
    le_trans (Nat.le_add_right mstart mlen) (parenScan_le _ _ _ _ hscan)
  unfold evaluate_num_functions
  simp only [hfind, hscan, hev]
  exact marker_restore s mstart endPos hme hclean

/-- C4 counterexample: on the input `n(+) __NUM_FAILED_0__`, whose `n(+)`
occurrence fails to evaluate, the failure branch inserts the marker
`__NUM_FAILED_0__` and then textually replaces every occurrence of that
marker, so the unrelated literal text `__NUM_FAILED_0__` already present
in the input is rewritten to `n(+)`: the output differs from the input,
refuting the claim that a failure leaves the text unchanged. -/
theorem claim_C4_counterexample :
    findNumMatch ("n(+) __NUM_FAILED_0__".toList) 0 = some (0, 2) ∧
    evaluate_num_functions (fun _ => none) 1 ("n(+) __NUM_FAILED_0__".toList) =
      "n(+) n(+)".toList ∧
    "n(+) n(+)".toList ≠ "n(+) __NUM_FAILED_0__".toList := by
  refine ⟨by decide, by decide, by decide⟩

theorem claim_C4_witness :
    findNumMatch ("n(+)x".toList) 0 = some (0, 2) ∧
    parenScan (("n(+)x".toList).drop 2) 2 1 = some 4 ∧
    ¬ (("__NUM_FAILED_".toList) <:+: "n(+)x".toList) ∧
    evaluate_num_functions (fun _ => none) 1 ("n(+)x".toList) = "n(+)x".toList :=
  ⟨by decide, by decide, by decide,
    claim_C4 (fun _ => none) 0 ("n(+)x".toList) 0 2 4 (by decide) (by decide) rfl (by decide)⟩
